import Mathlib

/-!
Verification of `print_files.py`, a directory-traversal utility that
concatenates file contents into one output file while excluding paths
matching ignore patterns.  The Python source is shallowly embedded below:
pure helpers become Lean functions, the filesystem becomes explicit data
(a tree of directory entries plus a path-to-content lookup), and fallible
I/O becomes `Option`/`Except` values.
-/

/-! ## Shell-wildcard matching (embedding of Python `fnmatch`)

Python's `fnmatch.translate` scans the pattern left to right: `*` matches
any character sequence (including `/` and newlines, via `(?s:...)`),
`?` matches any single character, and `[...]` is a character class.  The
class scan mirrors CPython: after `[`, an optional leading `!` and an
optional leading `]` are taken into the class body, then the body runs to
the next `]`; if no closing `]` exists, the `[` is a literal character. -/

/-- Scan for the closing `]` of a character class: returns the class body
and the remainder of the pattern after the `]`. -/
def findClose : List Char → Option (List Char × List Char)
  | [] => none
  | c :: rest =>
    if c = ']' then some ([], rest)
    else
      match findClose rest with
      | none => none
      | some (mid, after) => some (c :: mid, after)

/-- Continuation of the class scan: the already-consumed leading characters
`pre` belong to the class body, and the body extends to the next `]` in `t`. -/
def classTail (pre : List Char) (t : List Char) : Option (List Char × List Char) :=
  match findClose t with
  | none => none
  | some (mid, after) => some (pre ++ mid, after)

/-- Class scan following CPython `fnmatch.translate`: after `[`, an optional
`!` and then an optional `]` belong to the class body; the body extends to
the next `]`.  Returns `none` when the class is unterminated (then `[` is
treated as a literal by the matcher). -/
def scanClass (ps : List Char) : Option (List Char × List Char) :=
  match ps with
  | '!' :: ']' :: t => classTail ['!', ']'] t
  | '!' :: t => classTail ['!'] t
  | ']' :: t => classTail [']'] t
  | t => classTail [] t

/-- Membership of a character in a class body, with `a-b` ranges; a `-` that
is first or last in the body is a literal, as in the regex `fnmatch`
compiles to. -/
def classMatch : List Char → Char → Bool
  | [], _ => false
  | a :: '-' :: b :: rest, x => (a ≤ x && x ≤ b) || classMatch rest x
  | a :: rest, x => a == x || classMatch rest x

/-- Interpretation of a scanned class body: a leading `!` negates the class. -/
def classAccept (inner : List Char) (c : Char) : Bool :=
  match inner with
  | '!' :: rest => !(classMatch rest c)
  | _ => classMatch inner c

/-- Fuel-indexed wildcard matcher: `globRun fuel pat s` decides whether the
pattern `pat` matches the whole string `s` under Python `fnmatch` semantics.
Every recursive call strictly decreases `pat.length + s.length`, so any
fuel above that sum computes the true answer (`globRun_fuel_inv`). -/
def globRun : Nat → List Char → List Char → Bool
  | _, [], s => s.isEmpty
  | 0, _ :: _, _ => false
  | fuel + 1, p :: ps, s =>
    if p = '*' then
      globRun fuel ps s ||
        (match s with
         | [] => false
         | _ :: s2 => globRun fuel (p :: ps) s2)
    else if p = '?' then
      (match s with
       | [] => false
       | _ :: s2 => globRun fuel ps s2)
    else if p = '[' then
      (match scanClass ps with
       | none =>
         (match s with
          | [] => false
          | c :: s2 => (c == '[') && globRun fuel ps s2)
       | some (inner, rest) =>
         (match s with
          | [] => false
          | c :: s2 => classAccept inner c && globRun fuel rest s2))
    else
      (match s with
       | [] => false
       | c :: s2 => (p == c) && globRun fuel ps s2)

/-- Wildcard matching on character lists with adequate fuel. -/
def gmatch (p s : List Char) : Bool :=
  globRun (p.length + s.length + 1) p s

/-- Embedding of `fnmatch.fnmatch(name, pat)` (POSIX case behaviour, where
`os.path.normcase` is the identity). -/
def fnmatch (name pat : String) : Bool :=
  gmatch pat.data name.data

theorem findClose_length :
    ∀ (l mid rest : List Char), findClose l = some (mid, rest) →
      rest.length < l.length := by
  intro l
  induction l with
  | nil => intro mid rest h; simp [findClose] at h
  | cons c t ih =>
    intro mid rest h
    by_cases hc : c = ']'
    · simp [findClose, hc] at h
      simp [← h.2]
    · simp [findClose, hc] at h
      cases hfc : findClose t with
      | none => rw [hfc] at h; simp at h
      | some pr =>
        rw [hfc] at h
        cases pr with
        | mk mid2 after2 =>
          simp at h
          have := ih mid2 after2 hfc
          simp [← h.2]
          omega

theorem classTail_length (pre t inner rest : List Char)
    (h : classTail pre t = some (inner, rest)) : rest.length < t.length := by
  unfold classTail at h
  cases hfc : findClose t with
  | none => rw [hfc] at h; simp at h
  | some pr =>
    rw [hfc] at h
    cases pr with
    | mk mid after =>
      simp at h
      have hl := findClose_length t mid after hfc
      rw [← h.2]
      exact hl

theorem scanClass_length (l inner rest : List Char)
    (h : scanClass l = some (inner, rest)) : rest.length < l.length := by
  unfold scanClass at h
  split at h
  all_goals first
    | exact classTail_length _ _ _ _ h
    | (have hlen := classTail_length _ _ _ _ h
       simp only [List.length_cons]
       omega)


theorem globRun_fuel_inv :
    ∀ (f1 : Nat) (p s : List Char) (f2 : Nat),
      p.length + s.length < f1 → p.length + s.length < f2 →
      globRun f1 p s = globRun f2 p s := by
  intro f1
  induction f1 with
  | zero => intro p s f2 h1 h2; omega
  | succ f ih =>
    intro p s f2 h1 h2
    cases p with
    | nil =>
      cases f2 with
      | zero => omega
      | succ g => rfl
    | cons pc pt =>
      cases f2 with
      | zero => omega
      | succ g =>
        simp only [List.length_cons] at h1 h2
        simp only [globRun]
        by_cases hstar : pc = '*'
        · simp only [if_pos hstar]
          cases s with
          | nil =>
            rw [ih pt [] g (by simp at h1 ⊢; omega) (by simp at h2 ⊢; omega)]
          | cons c st =>
            simp only [List.length_cons] at h1 h2
            dsimp only
            rw [ih pt (c :: st) g (by simp <;> omega) (by simp <;> omega),
              ih (pc :: pt) st g (by simp <;> omega) (by simp <;> omega)]
        · simp only [if_neg hstar]
          by_cases hq : pc = '?'
          · simp only [if_pos hq]
            cases s with
            | nil => rfl
            | cons c st =>
              simp only [List.length_cons] at h1 h2
              exact ih pt st g (by omega) (by omega)
          · simp only [if_neg hq]
            by_cases hbr : pc = '['
            · simp only [if_pos hbr]
              cases hsc : scanClass pt with
              | none =>
                cases s with
                | nil => rfl
                | cons c st =>
                  simp only [List.length_cons] at h1 h2
                  dsimp only
                  rw [ih pt st g (by omega) (by omega)]
              | some pr =>
                cases pr with
                | mk inner rest =>
                  have hlen := scanClass_length pt inner rest hsc
                  cases s with
                  | nil => rfl
                  | cons c st =>
                    simp only [List.length_cons] at h1 h2
                    dsimp only
                    rw [ih rest st g (by omega) (by omega)]
            · simp only [if_neg hbr]
              cases s with
              | nil => rfl
              | cons c st =>
                simp only [List.length_cons] at h1 h2
                dsimp only
                rw [ih pt st g (by omega) (by omega)]

theorem globRun_eq_gmatch (p s : List Char) (f : Nat)
    (h : p.length + s.length < f) : globRun f p s = gmatch p s :=
  globRun_fuel_inv f p s (p.length + s.length + 1) h (by omega)

theorem globRun_star_succ (f : Nat) (ps s : List Char) :
    globRun (f + 1) ('*' :: ps) s =
      (globRun f ps s ||
        match s with
        | [] => false
        | _ :: s2 => globRun f ('*' :: ps) s2) := by
  simp [globRun]

theorem globRun_lit_succ (f : Nat) (c : Char) (ps s : List Char)
    (hc1 : c ≠ '*') (hc2 : c ≠ '?') (hc3 : c ≠ '[') :
    globRun (f + 1) (c :: ps) s =
      (match s with
       | [] => false
       | d :: s2 => (c == d) && globRun f ps s2) := by
  simp [globRun, hc1, hc2, hc3]

theorem gmatch_star_mp :
    ∀ (s ps : List Char), gmatch ('*' :: ps) s = true →
      ∃ s1 s2, s = s1 ++ s2 ∧ gmatch ps s2 = true := by
  intro s
  induction s with
  | nil =>
    intro ps h
    simp only [gmatch, List.length_cons] at h
    rw [globRun_star_succ] at h
    simp only [Bool.or_eq_true] at h
    refine ⟨[], [], rfl, ?_⟩
    rcases h with h | h
    · rw [globRun_eq_gmatch _ _ _ (by simp <;> omega)] at h
      exact h
    · simp at h
  | cons c st ih =>
    intro ps h
    simp only [gmatch, List.length_cons] at h
    rw [globRun_star_succ] at h
    simp only [Bool.or_eq_true] at h
    rcases h with h | h
    · rw [globRun_eq_gmatch _ _ _ (by simp <;> omega)] at h
      exact ⟨[], c :: st, rfl, h⟩
    · rw [globRun_eq_gmatch _ _ _ (by simp <;> omega)] at h
      obtain ⟨s1, s2, heq, hm⟩ := ih ps h
      exact ⟨c :: s1, s2, by rw [heq]; rfl, hm⟩

theorem gmatch_star_mpr :
    ∀ (s1 s2 ps : List Char), gmatch ps s2 = true →
      gmatch ('*' :: ps) (s1 ++ s2) = true := by
  intro s1
  induction s1 with
  | nil =>
    intro s2 ps h
    simp only [List.nil_append, gmatch, List.length_cons]
    rw [globRun_star_succ]
    simp only [Bool.or_eq_true]
    left
    rw [globRun_eq_gmatch _ _ _ (by omega)]
    exact h
  | cons c t ih =>
    intro s2 ps h
    simp only [List.cons_append, gmatch, List.length_cons]
    rw [globRun_star_succ]
    simp only [Bool.or_eq_true]
    right
    dsimp only
    rw [globRun_eq_gmatch _ _ _ (by simp <;> omega)]
    exact ih s2 ps h

/-- Star characterization: a pattern starting with `*` matches exactly the
strings that split so that the remaining pattern matches a suffix. -/
theorem gmatch_star_iff (ps s : List Char) :
    gmatch ('*' :: ps) s = true ↔
      ∃ s1 s2, s = s1 ++ s2 ∧ gmatch ps s2 = true := by
  constructor
  · exact gmatch_star_mp s ps
  · rintro ⟨s1, s2, rfl, h⟩
    exact gmatch_star_mpr s1 s2 ps h

/-- Matching a pattern starting with a literal (non-wildcard) character
consumes exactly that character from the string. -/
theorem gmatch_lit_cons (c : Char) (ps s : List Char)
    (hc1 : c ≠ '*') (hc2 : c ≠ '?') (hc3 : c ≠ '[') :
    gmatch (c :: ps) s = true ↔
      ∃ st, s = c :: st ∧ gmatch ps st = true := by
  simp only [gmatch, List.length_cons]
  rw [globRun_lit_succ _ _ _ _ hc1 hc2 hc3]
  cases s with
  | nil =>
    simp
  | cons d st =>
    dsimp only
    rw [globRun_eq_gmatch _ _ _ (by simp <;> omega)]
    simp only [Bool.and_eq_true, beq_iff_eq, List.cons.injEq]
    constructor
    · rintro ⟨rfl, h⟩
      exact ⟨st, ⟨rfl, rfl⟩, h⟩
    · rintro ⟨st2, ⟨rfl, rfl⟩, h⟩
      exact ⟨rfl, h⟩

/-- Suffix characterization for the derived pattern `*/<pat>`: it matches
exactly the strings that contain a `/` such that `pat` matches what follows
some occurrence of `/`. -/
theorem gmatch_starSlash (ps s : List Char) :
    gmatch ('*' :: '/' :: ps) s = true ↔
      ∃ a b, s = a ++ '/' :: b ∧ gmatch ps b = true := by
  rw [gmatch_star_iff]
  constructor
  · rintro ⟨s1, s2, rfl, h⟩
    rw [gmatch_lit_cons _ _ _ (by decide) (by decide) (by decide)] at h
    obtain ⟨st, rfl, hm⟩ := h
    exact ⟨s1, st, rfl, hm⟩
  · rintro ⟨a, b, rfl, h⟩
    refine ⟨a, '/' :: b, rfl, ?_⟩
    rw [gmatch_lit_cons _ _ _ (by decide) (by decide) (by decide)]
    exact ⟨b, rfl, h⟩

/-! ## Path filter (embedding of `is_ignored`, `print_files.py` lines 21-26)

The Python function returns `True` as soon as one pattern matches the path
either directly or with `*/` prepended; otherwise it prints the path (a
logging side effect, dropped in this pure embedding, as §4.2 of the spec
allows) and returns `False`. -/

def is_ignored (path : String) (patterns : List String) : Bool :=
  patterns.any (fun pattern =>
    fnmatch path pattern || fnmatch path ("*/" ++ pattern))

theorem fnmatch_starSlash_eq (P pat : String) :
    fnmatch P ("*/" ++ pat) = gmatch ('*' :: '/' :: pat.data) P.data := by
  unfold fnmatch
  have hdata : ("*/" ++ pat).data = '*' :: '/' :: pat.data := by
    rw [String.data_append]
    rfl
  rw [hdata]

example : fnmatch "foo.py" "*.py" = true := by decide
example : fnmatch "dir/foo.py" "*.py" = true := by decide
example : fnmatch ".github" ".git" = false := by decide
example : fnmatch "sub/.git" "*/.git" = true := by decide
example : fnmatch "ab" "a?" = true := by decide
example : fnmatch "ab" "a[b-d]" = true := by decide
example : fnmatch "ae" "a[b-d]" = false := by decide
example : fnmatch "ae" "a[!b-d]" = true := by decide
example : fnmatch "a[" "a[" = true := by decide

/-- C1: for every path string `P` and ordered pattern sequence `S`,
`is_ignored P S` returns true iff some pattern in `S` matches `P` directly
under shell-wildcard semantics, or matches the tail of `P` after some `/`
(i.e. `P` is a path ending in `/<pattern>`); and in particular pattern
`*.py` excludes `foo.py` and `dir/foo.py`, and `.git` excludes `.git` and
`sub/.git` but not `.github`. -/
theorem C1_is_ignored_iff :
    (∀ (P : String) (S : List String),
        is_ignored P S = true ↔
          ∃ pat ∈ S, fnmatch P pat = true ∨
            ∃ a b : List Char, P.data = a ++ '/' :: b ∧
              fnmatch (String.mk b) pat = true)
    ∧ is_ignored "foo.py" ["*.py"] = true
    ∧ is_ignored "dir/foo.py" ["*.py"] = true
    ∧ is_ignored ".git" [".git"] = true
    ∧ is_ignored "sub/.git" [".git"] = true
    ∧ is_ignored ".github" [".git"] = false := by
  refine ⟨?_, by decide, by decide, by decide, by decide, by decide⟩
  intro P S
  unfold is_ignored
  rw [List.any_eq_true]
  apply exists_congr
  intro pat
  apply and_congr_right
  intro _
  rw [Bool.or_eq_true]
  apply or_congr_right
  rw [fnmatch_starSlash_eq, gmatch_starSlash]
  apply exists_congr
  intro a
  apply exists_congr
  intro b
  apply and_congr_right
  intro _
  unfold fnmatch
  exact Iff.rfl

/-- Witness for C1, instantiating the iff at a concrete path and pattern
list: the backward direction produces exclusion of a nested file. -/
theorem C1_is_ignored_iff_witness :
    is_ignored "x/y.txt" ["y.txt"] = true :=
  ((C1_is_ignored_iff.1 "x/y.txt" ["y.txt"]).mpr
    ⟨"y.txt", by decide, Or.inr ⟨['x'], ['y', '.', 't', 'x', 't'], by decide, by decide⟩⟩)

/-! ## Ignore-pattern loader (embedding of `read_gitignore`, lines 10-18)

The filesystem of the current working directory is modelled as a lookup
`cwd : String → Option String` from relative path to text content, `none`
meaning the file does not exist (`os.path.exists` false).  Text-mode line
iteration splits the (newline-translated) content at each `'\n'`; the line
terminator itself is removed by `str.strip()` in the source, so splitting
without the terminator is observationally identical. -/

/-- Whitespace per Python `str.strip()` / `str.isspace()`. -/
def isPySpace (c : Char) : Bool :=
  c == ' ' || c == '\t' || c == '\n' || c == '\r' || c == '\x0B' || c == '\x0C' ||
  ('\x1C' ≤ c && c ≤ '\x1F') || c == '\u0085' || c == '\u00A0' || c == '\u1680' ||
  ('\u2000' ≤ c && c ≤ '\u200A') || c == '\u2028' || c == '\u2029' ||
  c == '\u202F' || c == '\u205F' || c == '\u3000'

/-- Embedding of Python `str.strip()`: remove leading and trailing
whitespace. -/
def pyStrip (s : String) : String :=
  String.mk (((s.data.dropWhile isPySpace).reverse.dropWhile isPySpace).reverse)

/-- Split a character list at every newline character. -/
def splitOnNl : List Char → List (List Char)
  | [] => [[]]
  | c :: rest =>
    if c = '\n' then [] :: splitOnNl rest
    else
      match splitOnNl rest with
      | [] => [c] :: []
      | l :: ls => (c :: l) :: ls

/-- Lines of a text file, in file order. -/
def splitLines (s : String) : List String :=
  (splitOnNl s.data).map String.mk

/-- Truthiness test `line.startswith('#')` of the source. -/
def beginsHash (s : String) : Bool :=
  match s.data with
  | c :: _ => c == '#'
  | [] => false

/-- Loop body of `read_gitignore`: strip the line and append it to the
accumulated patterns when it is non-blank and not a comment. -/
def gitignoreStep (patterns : List String) (line : String) : List String :=
  let l := pyStrip line
  if l != "" && !beginsHash l then patterns ++ [l] else patterns

/-- Embedding of `read_gitignore(gitignore_path=".gitignore")`: no file
means no patterns; otherwise accumulate the stripped non-blank non-comment
lines in file order. -/
def read_gitignore (cwd : String → Option String)
    (gitignore_path : String := ".gitignore") : List String :=
  match cwd gitignore_path with
  | none => []
  | some content => (splitLines content).foldl gitignoreStep []

theorem gitignoreLoop_eq :
    ∀ (ls acc : List String),
      ls.foldl gitignoreStep acc =
        acc ++ (ls.map pyStrip).filter (fun l => l != "" && !beginsHash l) := by
  intro ls
  induction ls with
  | nil => intro acc; simp
  | cons a t ih =>
    intro acc
    simp only [List.foldl_cons, List.map_cons, List.filter_cons]
    by_cases hc : (pyStrip a != "" && !beginsHash (pyStrip a)) = true
    · rw [ih]
      simp only [gitignoreStep, hc, if_pos hc]
      simp [List.append_assoc]
    · rw [ih]
      have hc2 : (pyStrip a != "" && !beginsHash (pyStrip a)) = false := by
        revert hc; cases (pyStrip a != "" && !beginsHash (pyStrip a)) <;> simp
      simp only [gitignoreStep, hc2]
      simp

/-- C7: `read_gitignore` returns the empty sequence (not an error) when the
ignore file does not exist; otherwise it returns, in file order, exactly
those lines that after stripping leading and trailing whitespace are
non-empty and do not begin with `#`, each in its stripped form (no
pattern-syntax validation is performed: any such line is kept verbatim). -/
theorem C7_read_gitignore_lines :
    (∀ (cwd : String → Option String) (path : String),
        cwd path = none → read_gitignore cwd path = [])
    ∧ (∀ (cwd : String → Option String) (path content : String),
        cwd path = some content →
          read_gitignore cwd path =
            ((splitLines content).map pyStrip).filter
              (fun l => l != "" && !beginsHash l)) := by
  constructor
  · intro cwd path h
    unfold read_gitignore
    rw [h]
  · intro cwd path content h
    unfold read_gitignore
    rw [h]
    dsimp only
    rw [gitignoreLoop_eq]
    simp

/-- Witness for C7 at a concrete ignore file: a comment line, a blank line
and surrounding whitespace are discarded, the remaining lines kept
stripped, in order. -/
theorem C7_read_gitignore_lines_witness :
    read_gitignore (fun _ => some "a.txt\n\n# comment\n  b.py  \nlast") ".gitignore"
      = ["a.txt", "b.py", "last"] :=
  (C7_read_gitignore_lines.2 (fun _ => some "a.txt\n\n# comment\n  b.py  \nlast")
    ".gitignore" "a.txt\n\n# comment\n  b.py  \nlast" rfl).trans (by decide)

/-! ## File reader (embedding of `read_file_contents`, lines 29-35)

A file on disk is modelled as `Option (List Nat)`: `none` when opening it
fails with an I/O error (which the Python code does not catch, so it
propagates, modelled by `Except.error`), otherwise its raw bytes.  Decoding
with `encoding="utf-8"` is the strict CPython decoder: it rejects stray
continuation bytes, overlong forms, surrogate code points and anything
above U+10FFFF.  Decoding with `encoding="latin-1"` maps every byte to the
Unicode character of the same value and cannot fail. -/

/-- Strict UTF-8 decoding of a byte list, `none` exactly when CPython's
UTF-8 decoder raises `UnicodeDecodeError`. -/
def utf8Decode : List Nat → Option (List Char)
  | [] => some []
  | b :: rest =>
    if b < 0x80 then
      (utf8Decode rest).map (fun cs => Char.ofNat b :: cs)
    else if b < 0xC2 then none
    else if b < 0xE0 then
      (match rest with
       | b2 :: rest2 =>
         if 0x80 ≤ b2 && b2 < 0xC0 then
           (utf8Decode rest2).map (fun cs =>
             Char.ofNat ((b - 0xC0) * 64 + (b2 - 0x80)) :: cs)
         else none
       | [] => none)
    else if b < 0xF0 then
      (match rest with
       | b2 :: b3 :: rest3 =>
         if (0x80 ≤ b2 && b2 < 0xC0) && (0x80 ≤ b3 && b3 < 0xC0)
             && !(b == 0xE0 && b2 < 0xA0) && !(b == 0xED && 0xA0 ≤ b2) then
           (utf8Decode rest3).map (fun cs =>
             Char.ofNat ((b - 0xE0) * 4096 + (b2 - 0x80) * 64 + (b3 - 0x80)) :: cs)
         else none
       | _ => none)
    else if b < 0xF5 then
      (match rest with
       | b2 :: b3 :: b4 :: rest4 =>
         if (0x80 ≤ b2 && b2 < 0xC0) && (0x80 ≤ b3 && b3 < 0xC0)
             && (0x80 ≤ b4 && b4 < 0xC0)
             && !(b == 0xF0 && b2 < 0x90) && !(b == 0xF4 && 0x90 ≤ b2) then
           (utf8Decode rest4).map (fun cs =>
             Char.ofNat ((b - 0xF0) * 262144 + (b2 - 0x80) * 4096
               + (b3 - 0x80) * 64 + (b4 - 0x80)) :: cs)
         else none
       | _ => none)
    else none

/-- Latin-1 decoding: every byte value is a valid character, so this is a
total function. -/
def latin1Decode (bytes : List Nat) : List Char :=
  bytes.map (fun b => Char.ofNat b)

/-- Embedding of `read_file_contents`: try UTF-8, and only on a decode
failure re-read the same bytes as Latin-1.  An I/O error on open (`none`)
is not caught and propagates. -/
def read_file_contents (file : Option (List Nat)) : Except Unit (List Char) :=
  match file with
  | none => Except.error ()
  | some bytes =>
    match utf8Decode bytes with
    | some s => Except.ok s
    | none => Except.ok (latin1Decode bytes)

example : utf8Decode [0x68, 0x69] = some ['h', 'i'] := by decide
example : utf8Decode [0xC3, 0xA9] = some ['é'] := by decide
example : utf8Decode [0xC0, 0x80] = none := by decide
example : utf8Decode [0xED, 0xA0, 0x80] = none := by decide
example : utf8Decode [0xE2, 0x82, 0xAC] = some ['€'] := by decide
example : utf8Decode [0xF0, 0x9F, 0x98, 0x80] = some ['😀'] := by decide
example : utf8Decode [0xFF] = none := by decide
example : latin1Decode [0xFF, 0x41] = ['ÿ', 'A'] := by decide

/-- C3: for every openable file, the reader first attempts a UTF-8 decode;
exactly when that fails it yields the Latin-1 decode of the same bytes,
which always succeeds, so every byte content yields a string; a file that
cannot be opened produces an uncaught error. -/
theorem C3_read_file_contents_fallback :
    (∀ (bytes : List Nat) (s : List Char), utf8Decode bytes = some s →
        read_file_contents (some bytes) = Except.ok s)
    ∧ (∀ (bytes : List Nat), utf8Decode bytes = none →
        read_file_contents (some bytes) = Except.ok (latin1Decode bytes))
    ∧ (∀ (bytes : List Nat), ∃ s, read_file_contents (some bytes) = Except.ok s)
    ∧ read_file_contents none = Except.error () := by
  refine ⟨?_, ?_, ?_, rfl⟩
  · intro bytes s h
    unfold read_file_contents
    dsimp only
    rw [h]
  · intro bytes h
    unfold read_file_contents
    dsimp only
    rw [h]
  · intro bytes
    unfold read_file_contents
    dsimp only
    cases h : utf8Decode bytes with
    | none => exact ⟨latin1Decode bytes, rfl⟩
    | some s => exact ⟨s, rfl⟩

/-- Witness for C3: the byte `0xFF` is invalid UTF-8, and the reader still
returns a string, namely the Latin-1 decode. -/
theorem C3_read_file_contents_fallback_witness :
    utf8Decode [255] = none ∧
      read_file_contents (some [255]) = Except.ok (latin1Decode [255]) :=
  ⟨by decide, C3_read_file_contents_fallback.2.1 [255] (by decide)⟩

/-! ## Filesystem tree, `os.walk` and the traverser/writer (lines 38-67)

A directory's listing is a list of entries (files have no stored content:
contents are read back through `readF : String → Option String`, the
embedding of `open`/`read` where `none` is an uncaught I/O error).  The
walk starts from the listing of `root_dir` and mirrors top-down `os.walk`
with in-place pruning: at each directory the pruned subdirectory list
determines what is descended into after the current directory's files. -/

inductive Entry where
  | file : String → Entry
  | dir : String → List Entry → Entry

/-- True when the string starts with a slash. -/
def headIsSlash (s : String) : Bool :=
  match s.data with
  | '/' :: _ => true
  | _ => false

/-- True when the string ends with a slash. -/
def lastIsSlash (s : String) : Bool :=
  match s.data.getLast? with
  | some '/' => true
  | _ => false

/-- Embedding of POSIX `os.path.join(a, b)` for the shapes the program
produces: an absolute `b` replaces `a`; otherwise a single separator is
inserted unless `a` is empty or already ends with one. -/
def pjoin (a b : String) : String :=
  if headIsSlash b then b
  else if a = "" || lastIsSlash a then a ++ b
  else a ++ "/" ++ b

/-- Full paths of the files directly inside a directory listing, in listing
order (the `files` component of one `os.walk` step, joined with `root`). -/
def filePaths (path : String) (children : List Entry) : List String :=
  children.filterMap (fun e =>
    match e with
    | Entry.file nm => some (pjoin path nm)
    | Entry.dir _ _ => none)

/-- Files directly inside a directory that survive the per-file
`is_ignored` check, in listing order. -/
def keptFiles (pats : List String) (path : String) (children : List Entry) : List String :=
  children.filterMap (fun e =>
    match e with
    | Entry.file nm =>
      if is_ignored (pjoin path nm) pats then none else some (pjoin path nm)
    | Entry.dir _ _ => none)

mutual

/-- Paths the walk pass writes, in write order: the current directory's
surviving files first, then recursively the non-pruned subdirectories. -/
def walkDir (pats : List String) (path : String) (children : List Entry) : List String :=
  keptFiles pats path children ++ walkDirs pats path children
termination_by (sizeOf children, 1)

/-- Recursion of the walk over the pruned subdirectory list: a subdirectory
whose joined path is ignored is removed before descending. -/
def walkDirs (pats : List String) (path : String) : List Entry → List String
  | [] => []
  | Entry.file _ :: es => walkDirs pats path es
  | Entry.dir n c :: es =>
    (if is_ignored (pjoin path n) pats then []
     else walkDir pats (pjoin path n) c) ++ walkDirs pats path es
termination_by es => (sizeOf es, 0)

end

/-- Sequential writing of a list of (already-filtered) file paths into the
output: the path line is written first, then the contents are read; a
failing read aborts with the output written so far (which therefore ends
with the failing file's path line). -/
def processFiles (readF : String → Option String) :
    List String → String → Except String String
  | [], out => Except.ok out
  | p :: rest, out =>
    match readF p with
    | none => Except.error (out ++ p ++ "\n")
    | some c => processFiles readF rest (out ++ p ++ "\n" ++ c ++ "\n\n")

/-- Embedding of the wildcard-file loop (lines 49-54): skip ignored paths,
write the entry of every other path, aborting on a failed read. -/
def writeLoop (readF : String → Option String) (pats : List String) :
    List String → String → Except String String
  | [], out => Except.ok out
  | wf :: rest, out =>
    if is_ignored wf pats then writeLoop readF pats rest out
    else
      match readF wf with
      | none => Except.error (out ++ wf ++ "\n")
      | some c => writeLoop readF pats rest (out ++ wf ++ "\n" ++ c ++ "\n\n")

mutual

/-- Embedding of one `os.walk` step of the output loop (lines 57-67): write
the surviving files of the current directory, then descend into the pruned
subdirectory list, threading the output text and aborting on error. -/
def walkWrite (readF : String → Option String) (pats : List String)
    (path : String) (children : List Entry) (out : String) :
    Except String String :=
  match writeLoop readF pats (filePaths path children) out with
  | Except.error po => Except.error po
  | Except.ok out1 => dirsWrite readF pats path children out1
termination_by (sizeOf children, 1)

/-- Descent into the subdirectories that survive pruning, in listing order. -/
def dirsWrite (readF : String → Option String) (pats : List String)
    (path : String) : List Entry → String → Except String String
  | [], out => Except.ok out
  | Entry.file _ :: es, out => dirsWrite readF pats path es out
  | Entry.dir n c :: es, out =>
    if is_ignored (pjoin path n) pats then dirsWrite readF pats path es out
    else
      match walkWrite readF pats (pjoin path n) c out with
      | Except.error po => Except.error po
      | Except.ok out2 => dirsWrite readF pats path es out2
termination_by es => (sizeOf es, 0)

end

/-- Opening the output file with mode `"w"` truncates it: whatever it held
before, writing starts from the empty string (line 47). -/
def openWrite (_prevOutput : String) : String := ""

/-- The two list arguments of `write_files_to_output`, modelled as mutable
state passed in and returned, so that any mutation the body performed on
them would be observable in the returned value. -/
structure WriterArgs where
  additional_patterns : List String
  wildcard_files : List String

/-- Embedding of `write_files_to_output` (lines 38-67): load the ignore
patterns from `.gitignore` in the current working directory, extend that
fresh list with the additional patterns, truncate the output file, process
the wildcard files, then walk `root_dir`.  The first component is the
final output text (or, on an uncaught read error, the partial output
written before the abort); the second returns the argument lists. -/
def write_files_to_output (cwd : String → Option String)
    (readF : String → Option String) (rootChildren : List Entry)
    (root_dir : String) (prevOutput : String) (args : WriterArgs) :
    Except String String × WriterArgs :=
  let patterns := read_gitignore cwd
  let patterns := patterns ++ args.additional_patterns
  let out := openWrite prevOutput
  let result :=
    match writeLoop readF patterns args.wildcard_files out with
    | Except.error po => Except.error po
    | Except.ok out1 => walkWrite readF patterns root_dir rootChildren out1
  (result, args)

/-- The fixed built-in exclusion list of `__main__` (lines 86-110). -/
def additional_patterns : List String :=
  [".git", ".gitignore", "*.py", "*.lock", "*.lockb", "*.png", "*.jpg",
   "*.jpeg", "*.ico", "*.gif", "*.svg", "*.pdf", "*.doc", "*.docx",
   "*.sqlite*", "*.ppt", "*.pptx", "*-lock.json", ".devcontainer",
   ".vscode", "node_modules", "prisma/migrations", ".next"]

/-- Embedding of the `__main__` block (lines 69-112): expand each wildcard
pattern with `glob.glob` (modelled by `globFn`) in argument order, then
call the writer with the built-in exclusion list. -/
def mainRun (cwd : String → Option String) (readF : String → Option String)
    (rootChildren : List Entry) (globFn : String → List String)
    (root_directory : String) (wildcard_patterns : List String)
    (prevOutput : String) : Except String String × WriterArgs :=
  let wildcard_files :=
    wildcard_patterns.foldl (fun acc pattern => acc ++ globFn pattern) []
  write_files_to_output cwd readF rootChildren root_directory prevOutput
    ⟨additional_patterns, wildcard_files⟩

theorem processFiles_append (readF : String → Option String)
    (xs ys : List String) :
    ∀ out, processFiles readF (xs ++ ys) out =
      match processFiles readF xs out with
      | Except.error po => Except.error po
      | Except.ok out1 => processFiles readF ys out1 := by
  induction xs with
  | nil => intro out; rfl
  | cons p rest ih =>
    intro out
    simp only [List.cons_append, processFiles]
    cases readF p with
    | none => rfl
    | some c => exact ih _

theorem writeLoop_eq_processFiles (readF : String → Option String)
    (pats : List String) (ps : List String) :
    ∀ out, writeLoop readF pats ps out =
      processFiles readF (ps.filter (fun p => !is_ignored p pats)) out := by
  induction ps with
  | nil => intro out; rfl
  | cons wf rest ih =>
    intro out
    cases hig : is_ignored wf pats with
    | true =>
      simp only [writeLoop, hig, List.filter_cons, Bool.not_true, if_true]
      simp only [Bool.false_eq_true, if_false]
      exact ih out
    | false =>
      simp only [writeLoop, hig, List.filter_cons, Bool.not_false, if_true]
      simp only [Bool.false_eq_true, if_false, processFiles]
      cases readF wf with
      | none => rfl
      | some c => exact ih _

theorem keptFiles_eq_filter (pats : List String) (path : String)
    (children : List Entry) :
    keptFiles pats path children =
      (filePaths path children).filter (fun p => !is_ignored p pats) := by
  induction children with
  | nil => rfl
  | cons e es ih =>
    cases e with
    | file nm =>
      simp only [keptFiles, filePaths, List.filterMap_cons] at ih ⊢
      cases hig : is_ignored (pjoin path nm) pats with
      | true =>
        simp only [hig, List.filter_cons, Bool.not_true, if_true]
        simp only [Bool.false_eq_true, if_false]
        exact ih
      | false =>
        simp only [hig, List.filter_cons, Bool.not_false, if_true]
        simp only [Bool.false_eq_true, if_false]
        rw [ih]
    | dir n c =>
      simp only [keptFiles, filePaths, List.filterMap_cons] at ih ⊢
      exact ih

theorem walkDirs_append (pats : List String) (path : String) :
    ∀ (xs ys : List Entry), walkDirs pats path (xs ++ ys) =
      walkDirs pats path xs ++ walkDirs pats path ys := by
  intro xs
  induction xs with
  | nil => intro ys; simp [walkDirs]
  | cons e es ih =>
    intro ys
    cases e with
    | file nm =>
      simp only [List.cons_append, walkDirs]
      exact ih ys
    | dir n c =>
      simp only [List.cons_append, walkDirs]
      rw [ih ys, List.append_assoc]

theorem dirsWrite_eq_processFiles :
    ∀ (N : Nat) (es : List Entry), sizeOf es ≤ N →
      ∀ (readF : String → Option String) (pats : List String)
        (path : String) (out : String),
        dirsWrite readF pats path es out =
          processFiles readF (walkDirs pats path es) out := by
  intro N
  induction N using Nat.strong_induction_on with
  | _ N ih =>
    intro es hsz readF pats path out
    cases es with
    | nil => simp [dirsWrite, walkDirs, processFiles]
    | cons e es2 =>
      cases e with
      | file nm =>
        have hc := List.cons.sizeOf_spec (Entry.file nm) es2
        simp only [dirsWrite, walkDirs]
        exact ih (sizeOf es2) (by omega) es2 (le_refl _) readF pats path out
      | dir n c =>
        have hc := List.cons.sizeOf_spec (Entry.dir n c) es2
        have hd : sizeOf (Entry.dir n c) = 1 + sizeOf n + sizeOf c := by
          simp
        cases hig : is_ignored (pjoin path n) pats with
        | true =>
          simp only [dirsWrite, walkDirs, hig, if_true]
          simp only [Bool.false_eq_true, if_false, List.nil_append]
          exact ih (sizeOf es2) (by omega) es2 (le_refl _) readF pats path out
        | false =>
          simp only [dirsWrite, walkDirs, hig]
          simp only [Bool.false_eq_true, if_false]
          have hw : walkWrite readF pats (pjoin path n) c out =
              processFiles readF (walkDir pats (pjoin path n) c) out := by
            simp only [walkWrite, walkDir]
            rw [writeLoop_eq_processFiles, ← keptFiles_eq_filter,
              processFiles_append]
            cases hres : processFiles readF (keptFiles pats (pjoin path n) c) out with
            | error po => rfl
            | ok out1 =>
              exact ih (sizeOf c) (by omega) c (le_refl _) readF pats
                (pjoin path n) out1
          rw [hw, processFiles_append]
          cases hres : processFiles readF (walkDir pats (pjoin path n) c) out with
          | error po => rfl
          | ok out2 =>
            exact ih (sizeOf es2) (by omega) es2 (le_refl _) readF pats path out2

theorem walkWrite_eq_processFiles (readF : String → Option String)
    (pats : List String) (path : String) (children : List Entry)
    (out : String) :
    walkWrite readF pats path children out =
      processFiles readF (walkDir pats path children) out := by
  simp only [walkWrite, walkDir]
  rw [writeLoop_eq_processFiles, ← keptFiles_eq_filter, processFiles_append]
  cases hres : processFiles readF (keptFiles pats path children) out with
  | error po => rfl
  | ok out1 =>
    exact dirsWrite_eq_processFiles (sizeOf children) children (le_refl _)
      readF pats path out1

/-- Concatenated text of output entries for the file paths `ps` under the
content map `content`: each unit is the path line, the content, then two
newline characters, with no escaping. -/
def render (content : String → String) : List String → String
  | [] => ""
  | p :: rest => p ++ "\n" ++ content p ++ "\n\n" ++ render content rest

theorem render_append (content : String → String) :
    ∀ (xs ys : List String),
      render content (xs ++ ys) = render content xs ++ render content ys := by
  intro xs
  induction xs with
  | nil => intro ys; simp [render]
  | cons p rest ih =>
    intro ys
    simp only [List.cons_append, render, List.append_eq]
    rw [ih]
    simp [String.append_assoc]

theorem processFiles_total (content : String → String)
    (readF : String → Option String)
    (hr : ∀ p, readF p = some (content p)) :
    ∀ (ps : List String) (out : String),
      processFiles readF ps out = Except.ok (out ++ render content ps) := by
  intro ps
  induction ps with
  | nil => intro out; simp [processFiles, render]
  | cons p rest ih =>
    intro out
    simp only [processFiles, hr p]
    rw [ih]
    simp [render, String.append_assoc]

theorem processFiles_fail (content : String → String)
    (readF : String → Option String) (bad : String) (hb : readF bad = none) :
    ∀ (good : List String), (∀ p ∈ good, readF p = some (content p)) →
      ∀ (rest : List String) (out : String),
        processFiles readF (good ++ bad :: rest) out =
          Except.error (out ++ render content good ++ bad ++ "\n") := by
  intro good
  induction good with
  | nil =>
    intro _ rest out
    simp [processFiles, hb, render]
  | cons p g ih =>
    intro hr rest out
    simp only [List.cons_append, processFiles, List.append_eq,
      hr p (List.mem_cons_self p g)]
    rw [ih (fun q hq => hr q (List.mem_cons_of_mem p hq)) rest]
    simp [render, String.append_assoc]

/-- The whole writer is the sequential entry writer applied (from the
truncated, empty output) to the surviving wildcard files followed by the
walked files. -/
theorem write_files_to_output_eq (cwd : String → Option String)
    (readF : String → Option String) (rootChildren : List Entry)
    (root_dir : String) (prevOutput : String) (args : WriterArgs) :
    (write_files_to_output cwd readF rootChildren root_dir prevOutput args).1 =
      processFiles readF
        ((args.wildcard_files.filter (fun p =>
            !is_ignored p (read_gitignore cwd ++ args.additional_patterns)))
          ++ walkDir (read_gitignore cwd ++ args.additional_patterns)
              root_dir rootChildren) "" := by
  unfold write_files_to_output
  dsimp only
  simp only [openWrite]
  rw [writeLoop_eq_processFiles, processFiles_append]
  cases hres : processFiles readF
      (args.wildcard_files.filter (fun p =>
        !is_ignored p (read_gitignore cwd ++ args.additional_patterns)))
      "" with
  | error po => rfl
  | ok out1 =>
    dsimp only
    rw [walkWrite_eq_processFiles]

/-- C2: a subdirectory whose full joined path is excluded is removed from
the traversal before descending, so the walk over a listing containing it
(at any position) emits exactly the same file list, and writes exactly the
same output, as the walk over the listing without it: no file anywhere
under the excluded directory (for example `inner.txt` under a directory
named `node_modules`) ever contributes an entry. -/
theorem C2_pruned_dir_contributes_nothing
    (pats : List String) (path n : String) (c : List Entry)
    (pre post : List Entry) (readF : String → Option String) (out : String)
    (h : is_ignored (pjoin path n) pats = true) :
    walkDir pats path (pre ++ Entry.dir n c :: post) =
      walkDir pats path (pre ++ post)
    ∧ walkWrite readF pats path (pre ++ Entry.dir n c :: post) out =
        walkWrite readF pats path (pre ++ post) out := by
  have h1 : walkDir pats path (pre ++ Entry.dir n c :: post) =
      walkDir pats path (pre ++ post) := by
    simp only [walkDir]
    have hk : keptFiles pats path (pre ++ Entry.dir n c :: post) =
        keptFiles pats path (pre ++ post) := by
      simp [keptFiles, List.filterMap_append, List.filterMap_cons]
    have hw : walkDirs pats path (pre ++ Entry.dir n c :: post) =
        walkDirs pats path (pre ++ post) := by
      rw [walkDirs_append, walkDirs_append]
      simp [walkDirs, h]
    rw [hk, hw]
  refine ⟨h1, ?_⟩
  rw [walkWrite_eq_processFiles, walkWrite_eq_processFiles, h1]

/-- Witness for C2: with the built-in pattern `node_modules`, a directory
`./node_modules` containing `inner.txt` is pruned, and the walk equals the
walk of the same listing without that directory. -/
theorem C2_pruned_dir_contributes_nothing_witness :
    is_ignored (pjoin "." "node_modules") ["node_modules"] = true
    ∧ walkDir ["node_modules"] "."
        (Entry.dir "node_modules" [Entry.file "inner.txt"]
          :: [Entry.file "a.txt"]) =
      walkDir ["node_modules"] "." [Entry.file "a.txt"] :=
  ⟨by decide,
   (C2_pruned_dir_contributes_nothing ["node_modules"] "." "node_modules"
     [Entry.file "inner.txt"] [] [Entry.file "a.txt"]
     (fun _ => none) "" (by decide)).1⟩

/-- C4: opening the output file with mode `"w"` truncates any existing
content, so the run's outcome is entirely independent of whatever the
output file held before: no byte of a previous run's output can survive. -/
theorem C4_output_truncated (cwd readF : String → Option String)
    (rootChildren : List Entry) (root_dir : String) (args : WriterArgs) :
    (∀ prevOutput, openWrite prevOutput = "")
    ∧ ∀ prev1 prev2,
        write_files_to_output cwd readF rootChildren root_dir prev1 args =
          write_files_to_output cwd readF rootChildren root_dir prev2 args :=
  ⟨fun _ => rfl, fun _ _ => rfl⟩

/-- C10: the writer never mutates its `additional_patterns` or
`wildcard_files` arguments: it builds a fresh pattern list from
`read_gitignore` and extends that copy, so the argument state returned by
the embedding is element-for-element the state passed in. -/
theorem C10_arguments_unchanged (cwd readF : String → Option String)
    (rootChildren : List Entry) (root_dir prevOutput : String)
    (args : WriterArgs) :
    (write_files_to_output cwd readF rootChildren root_dir
        prevOutput args).2 = args
    ∧ (∀ i : Nat,
        (write_files_to_output cwd readF rootChildren root_dir
            prevOutput args).2.additional_patterns.get? i
          = args.additional_patterns.get? i)
    ∧ (∀ i : Nat,
        (write_files_to_output cwd readF rootChildren root_dir
            prevOutput args).2.wildcard_files.get? i
          = args.wildcard_files.get? i) :=
  ⟨rfl, fun _ => rfl, fun _ => rfl⟩

/-- C8: every exclusion decision of a run uses the pattern sequence loaded
from the file named `.gitignore` in the current working directory followed
by the fixed built-in list appended after it; the sequence depends neither
on the traversal root nor on any CLI argument. -/
theorem C8_effective_pattern_sequence (cwd readF : String → Option String)
    (rootChildren : List Entry) (globFn : String → List String)
    (root_directory : String) (wildcard_patterns : List String)
    (prevOutput : String) :
    additional_patterns =
      [".git", ".gitignore", "*.py", "*.lock", "*.lockb", "*.png", "*.jpg",
       "*.jpeg", "*.ico", "*.gif", "*.svg", "*.pdf", "*.doc", "*.docx",
       "*.sqlite*", "*.ppt", "*.pptx", "*-lock.json", ".devcontainer",
       ".vscode", "node_modules", "prisma/migrations", ".next"]
    ∧ (mainRun cwd readF rootChildren globFn root_directory
          wildcard_patterns prevOutput).1 =
        (match writeLoop readF
            (read_gitignore cwd ".gitignore" ++ additional_patterns)
            (wildcard_patterns.foldl
              (fun acc pattern => acc ++ globFn pattern) []) "" with
         | Except.error po => Except.error po
         | Except.ok out1 =>
           walkWrite readF
             (read_gitignore cwd ".gitignore" ++ additional_patterns)
             root_directory rootChildren out1) :=
  ⟨rfl, rfl⟩

/-- C6: for every file written (wildcard pass and walk pass alike) the
appended text is exactly the file's path, one newline, the file's full
content, then two newlines; on a run where every read succeeds the whole
output is the concatenation of such units, with no escaping. -/
theorem C6_output_entry_format (cwd readF : String → Option String)
    (content : String → String) (rootChildren : List Entry)
    (root_dir prevOutput : String) (args : WriterArgs)
    (hr : ∀ p, readF p = some (content p)) :
    (∀ p ps, render content (p :: ps) =
        p ++ "\n" ++ content p ++ "\n\n" ++ render content ps)
    ∧ render content [] = ""
    ∧ (write_files_to_output cwd readF rootChildren root_dir
          prevOutput args).1 =
        Except.ok (render content
          ((args.wildcard_files.filter (fun p =>
              !is_ignored p (read_gitignore cwd ++ args.additional_patterns)))
            ++ walkDir (read_gitignore cwd ++ args.additional_patterns)
                root_dir rootChildren)) := by
  refine ⟨fun p ps => rfl, rfl, ?_⟩
  rw [write_files_to_output_eq, processFiles_total content readF hr]
  simp

/-- Witness for C6: a run over an empty root with one wildcard file,
constant contents. -/
theorem C6_output_entry_format_witness :
    (write_files_to_output (fun _ => none) (fun _ => some "C") [] "." ""
        ⟨[], ["w.txt"]⟩).1 =
      Except.ok (render (fun _ => "C")
        ((["w.txt"].filter (fun p =>
            !is_ignored p (read_gitignore (fun _ => none) ++ ([] : List String))))
          ++ walkDir (read_gitignore (fun _ => none) ++ ([] : List String))
              "." [])) :=
  (C6_output_entry_format (fun _ => none) (fun _ => some "C") (fun _ => "C")
    [] "." "" ⟨[], ["w.txt"]⟩ (fun _ => rfl)).2.2

theorem globAccum_eq (globFn : String → List String) :
    ∀ (qs acc : List String),
      qs.foldl (fun acc pattern => acc ++ globFn pattern) acc =
        acc ++ qs.flatMap globFn := by
  intro qs
  induction qs with
  | nil => intro acc; simp
  | cons q t ih =>
    intro acc
    simp only [List.foldl_cons, List.flatMap_cons]
    rw [ih]
    simp [List.append_assoc]

/-- C5: on a run where every read succeeds, all surviving wildcard entries
are written before any walk entry, in the order of the wildcard file list
(argument order then glob-expansion order, no deduplication), and a path
that survives the filter in both the wildcard list and the walk appears at
least twice among the written files. -/
theorem C5_wildcard_files_written_first (cwd readF : String → Option String)
    (content : String → String) (rootChildren : List Entry)
    (globFn : String → List String) (root_directory : String)
    (wildcard_patterns : List String) (prevOutput : String)
    (hr : ∀ p, readF p = some (content p)) :
    (wildcard_patterns.foldl (fun acc pattern => acc ++ globFn pattern) [] =
        wildcard_patterns.flatMap globFn)
    ∧ (mainRun cwd readF rootChildren globFn root_directory
          wildcard_patterns prevOutput).1 =
        Except.ok
          (render content
              ((wildcard_patterns.flatMap globFn).filter (fun p =>
                !is_ignored p (read_gitignore cwd ++ additional_patterns)))
            ++ render content
              (walkDir (read_gitignore cwd ++ additional_patterns)
                root_directory rootChildren))
    ∧ (∀ p,
        p ∈ (wildcard_patterns.flatMap globFn).filter (fun p =>
              !is_ignored p (read_gitignore cwd ++ additional_patterns)) →
        p ∈ walkDir (read_gitignore cwd ++ additional_patterns)
              root_directory rootChildren →
        2 ≤ (((wildcard_patterns.flatMap globFn).filter (fun p =>
                !is_ignored p (read_gitignore cwd ++ additional_patterns)))
              ++ walkDir (read_gitignore cwd ++ additional_patterns)
                  root_directory rootChildren).count p) := by
  have hwf : wildcard_patterns.foldl (fun acc pattern => acc ++ globFn pattern) [] =
      wildcard_patterns.flatMap globFn := by
    rw [globAccum_eq]
    simp
  refine ⟨hwf, ?_, ?_⟩
  · unfold mainRun
    dsimp only
    rw [write_files_to_output_eq]
    dsimp only
    rw [hwf, processFiles_total content readF hr, render_append]
    simp
  · intro p hp1 hp2
    rw [List.count_append]
    have c1 := List.count_pos_iff.mpr hp1
    have c2 := List.count_pos_iff.mpr hp2
    omega

/-- Witness for C5, instantiating the run at a one-file wildcard list over
an empty root. -/
theorem C5_wildcard_files_written_first_witness :
    (mainRun (fun _ => none) (fun _ => some "X") [] (fun q => [q]) "."
        ["w.txt"] "").1 =
      Except.ok
        (render (fun _ => "X")
            ((["w.txt"].flatMap (fun q => [q])).filter (fun p =>
              !is_ignored p (read_gitignore (fun _ => none) ++ additional_patterns)))
          ++ render (fun _ => "X")
            (walkDir (read_gitignore (fun _ => none) ++ additional_patterns)
              "." [])) :=
  (C5_wildcard_files_written_first (fun _ => none) (fun _ => some "X")
    (fun _ => "X") [] (fun q => [q]) "." ["w.txt"] "" (fun _ => rfl)).2.1

/-- C9 (amended): a failed read aborts the whole run with no retry and no
skipping; the output file holds exactly the bytes written before the
failure, namely the complete entries of the files processed earlier
followed by the failing file's path line and its newline, independent of
any previous output content (no rollback). -/
theorem C9_abort_on_read_error (cwd readF : String → Option String)
    (content : String → String) (rootChildren : List Entry)
    (root_dir : String) (args : WriterArgs)
    (good : List String) (bad : String) (rest : List String)
    (hseq : (args.wildcard_files.filter (fun p =>
          !is_ignored p (read_gitignore cwd ++ args.additional_patterns)))
        ++ walkDir (read_gitignore cwd ++ args.additional_patterns)
            root_dir rootChildren
      = good ++ bad :: rest)
    (hr : ∀ p ∈ good, readF p = some (content p))
    (hb : readF bad = none) :
    ∀ prevOutput,
      (write_files_to_output cwd readF rootChildren root_dir
          prevOutput args).1 =
        Except.error (render content good ++ bad ++ "\n") := by
  intro prevOutput
  rw [write_files_to_output_eq, hseq,
    processFiles_fail content readF bad hb good hr rest]
  simp

/-- Counterexample for C9 as stated: when the read of `bad.bin` fails, the
output on disk is not the concatenation of the complete entries written
before the failure (`a.txt\nA\n\n`): it additionally holds the failing
file's already-written path line `bad.bin\n`. -/
theorem C9_exact_entries_counterexample :
    (write_files_to_output (fun _ => none)
        (fun p => if p = "a.txt" then some "A" else none) [] "." ""
        ⟨[], ["a.txt", "bad.bin"]⟩).1 =
      Except.error "a.txt\nA\n\nbad.bin\n"
    ∧ "a.txt\nA\n\nbad.bin\n" ≠ "a.txt\nA\n\n" := by
  constructor
  · rfl
  · decide

/-- Witness for C9 (amended), at the same concrete run: the abort theorem
produces exactly the partial output. -/
theorem C9_abort_on_read_error_witness :
    (write_files_to_output (fun _ => none)
        (fun p => if p = "a.txt" then some "A" else none) [] "." ""
        ⟨[], ["a.txt", "bad.bin"]⟩).1 =
      Except.error (render (fun _ => "A") ["a.txt"] ++ "bad.bin" ++ "\n") :=
  C9_abort_on_read_error (fun _ => none)
    (fun p => if p = "a.txt" then some "A" else none) (fun _ => "A")
    [] "." ⟨[], ["a.txt", "bad.bin"]⟩ ["a.txt"] "bad.bin" []
    (by simp [walkDir, walkDirs, keptFiles]; decide)
    (by decide) (by decide) ""
